import Mathlib

/-!
# Shallow embedding of the alice_ai_server trade-ledger core

This file embeds, in Lean, the data model and the operations of the
repository's chain-event ingestion pipeline, and proves the frozen claims
about them.

Embedded source files:
* `src/db/mod.rs` — the relational schema created by `init_db`
  (tables `trades`, `user_mappings`, `sync_status`, `telegram_bots`);
* `src/db/operations.rs` — `get_last_synced_block`,
  `update_last_synced_block`, `process_buy_trade`, `process_sell_trade`,
  `get_user_subject_shares`;
* `src/block_chain/sync.rs` — `sync_trade_events` (the per-iteration sync
  loop body) and `process_trade_event` (the trade processor / moderation
  dispatch);
* `src/routes/signature.rs` — `handle_verify`;
* `src/block_chain/sui.rs` — `SuiBlockchain::verify_signature`.

Modelling conventions:
* Ethereum/Sui addresses and telegram identifiers are represented by the
  `String` that the Rust code stores for them (the code stores
  `hex::encode(address)` — we work directly with that canonical string).
* `BigDecimal` share amounts are represented by `Int`: every amount the
  code writes comes from a `u64`/`U256` trade amount, and the only
  arithmetic performed is exact integer addition and subtraction with no
  clamping, so `Int` is a faithful carrier.
* SQL tables are association lists of row structures; SQL `SELECT ...
  fetch_optional` is `List.find?`, `INSERT ... ON CONFLICT DO UPDATE`
  is an explicit upsert, `UPDATE ... WHERE key` maps the matching rows.
  The storage layer itself is modelled as always reachable; the fallible
  external calls the loop makes (RPC height fetch, event query, watermark
  write, Telegram API) are explicit oracle inputs of each step.
-/

/-- A row of the `trades` table (`init_db` in `src/db/mod.rs`):
`trader VARCHAR, subject VARCHAR, share_amount NUMERIC, PRIMARY KEY (trader, subject)`. -/
structure TradesRow where
  trader : String
  subject : String
  share_amount : Int
  deriving Repr, DecidableEq

/-- A row of the `user_mappings` table: `address VARCHAR PRIMARY KEY,
telegram_id VARCHAR, is_banned BOOLEAN DEFAULT FALSE`. -/
structure UserMappingRow where
  address : String
  telegram_id : String
  is_banned : Bool
  deriving Repr, DecidableEq

/-- A row of the `telegram_bots` table (the columns the core reads):
`bot_token, chat_group_id, subject_address`. -/
structure TelegramBotRow where
  subject_address : String
  bot_token : String
  chat_group_id : String
  deriving Repr, DecidableEq

/-- The database state. `sync_status` holds `last_synced_block` of the
row the queries in `src/db/operations.rs` address (they always `ORDER BY
id DESC LIMIT 1`, so a single latest value models the table; `none` means
the table is empty). -/
structure Db where
  trades : List TradesRow
  user_mappings : List UserMappingRow
  telegram_bots : List TelegramBotRow
  sync_status : Option Nat
  deriving Repr, DecidableEq

/-- `WHERE trader = $t AND subject = $s` on a `trades` row. -/
def tradeKeyMatch (t s : String) (r : TradesRow) : Bool :=
  r.trader == t && r.subject == s

/-- `SELECT share_amount FROM trades WHERE trader = $1 AND subject = $2`
with `fetch_optional`. -/
def tradesFind (db : Db) (t s : String) : Option Int :=
  (db.trades.find? (tradeKeyMatch t s)).map (·.share_amount)

/-- `UPDATE trades SET share_amount = f(share_amount) WHERE trader = $t AND
subject = $s` applied to the row list. -/
def mapShares (t s : String) (f : Int → Int) (l : List TradesRow) : List TradesRow :=
  l.map fun r => if tradeKeyMatch t s r then { r with share_amount := f r.share_amount } else r

/-- `SELECT telegram_id, is_banned FROM user_mappings WHERE address = $1`
with `fetch_optional`. -/
def umFind (db : Db) (address : String) : Option UserMappingRow :=
  db.user_mappings.find? (fun u => u.address == address)

/-- `SELECT bot_token, chat_group_id FROM telegram_bots WHERE
subject_address = $1` with `fetch_optional`. -/
def botFind (db : Db) (subject : String) : Option TelegramBotRow :=
  db.telegram_bots.find? (fun b => b.subject_address == subject)

/-- `SELECT ... FROM telegram_bots WHERE chat_group_id = $1`
(`handle_verify` resolves the bot by chat id). -/
def botFindByChat (db : Db) (chat_id : String) : Option TelegramBotRow :=
  db.telegram_bots.find? (fun b => b.chat_group_id == chat_id)

/-- `UPDATE user_mappings SET is_banned = $b WHERE address = $1`. -/
def setBanned (db : Db) (address : String) (b : Bool) : Db :=
  { db with
    user_mappings := db.user_mappings.map fun u =>
      if u.address == address then { u with is_banned := b } else u }

/-- `process_buy_trade` (`src/db/operations.rs:44-63`):
`INSERT INTO trades (trader, subject, share_amount) VALUES ($1,$2,$3)
ON CONFLICT (trader, subject) DO UPDATE SET share_amount =
trades.share_amount + $3`. -/
def process_buy_trade (db : Db) (trader subject : String) (share_amount : Int) : Db :=
  if db.trades.any (tradeKeyMatch trader subject) then
    { db with trades := mapShares trader subject (· + share_amount) db.trades }
  else
    { db with trades := db.trades ++ [⟨trader, subject, share_amount⟩] }

/-- `process_sell_trade` (`src/db/operations.rs:66-106`):
`UPDATE trades SET share_amount = share_amount - $1 WHERE trader = $2 AND
subject = $3 RETURNING share_amount` with `fetch_optional`; when the
returned post-update amount is `0`, the trader's `user_mappings` row is
looked up and `(true, Some(telegram_id))` is returned when one exists;
every other path returns `(false, None)`. When no `trades` row matches,
nothing is updated. -/
def process_sell_trade (db : Db) (trader subject : String) (share_amount : Int) :
    Db × Bool × Option String :=
  match tradesFind db trader subject with
  | none => (db, false, none)
  | some b =>
    let db' := { db with trades := mapShares trader subject (· - share_amount) db.trades }
    if b - share_amount = 0 then
      match umFind db trader with
      | some u => (db', true, some u.telegram_id)
      | none => (db', false, none)
    else
      (db', false, none)

/-- `get_user_subject_shares` (`src/db/operations.rs:109-126`): the stored
amount, `0` when no row exists. -/
def get_user_subject_shares (db : Db) (trader subject : String) : Int :=
  (tradesFind db trader subject).getD 0

/-- `get_last_synced_block` (`src/db/operations.rs:8-29`): read the latest
`sync_status` row; when the table is empty, insert `start_block` and
return it. -/
def get_last_synced_block (db : Db) (start_block : Nat) : Nat × Db :=
  match db.sync_status with
  | some v => (v, db)
  | none => (start_block, { db with sync_status := some start_block })

/-- `update_last_synced_block` (`src/db/operations.rs:32-41`):
`UPDATE sync_status SET last_synced_block = $1 WHERE id = (latest row)` —
a no-op when the table is empty. -/
def update_last_synced_block (db : Db) (block_number : Nat) : Db :=
  { db with sync_status := db.sync_status.map fun _ => block_number }

/-- A decoded `Trade` event (`TradeEvent` in `src/block_chain/utils.rs`,
restricted to the fields `process_trade_event` reads; `trader`/`subject`
carry the hex string `sync.rs` derives with `hex::encode`). -/
structure TradeEvent where
  trader : String
  subject : String
  is_buy : Bool
  share_amount : Nat
  deriving Repr, DecidableEq

/-- A Telegram moderation call attempted by `process_trade_event`
(`src/block_chain/sync.rs`): `banChatMember` or `unbanChatMember` with the
resolved bot token, chat group and user id. -/
inductive ModAction where
  | banAttempt (bot_token chat_group_id telegram_id : String)
  | unbanAttempt (bot_token chat_group_id telegram_id : String)
  deriving Repr, DecidableEq

/-- `process_trade_event` (`src/block_chain/sync.rs:93-230`). `apiOk`
is the outcome of the Telegram HTTP call, an external input: on a
successful call the code also flips `user_mappings.is_banned`.
Returns the mutated database and the list of attempted moderation calls. -/
def process_trade_event (event : TradeEvent) (db : Db) (apiOk : Bool) :
    Db × List ModAction :=
  if event.is_buy then
    let db1 := process_buy_trade db event.trader event.subject event.share_amount
    match umFind db1 event.trader with
    | some user =>
      if user.is_banned then
        match tradesFind db1 event.trader event.subject with
        | some share =>
          if share > 0 then
            match botFind db1 event.subject with
            | some bot =>
              let act := ModAction.unbanAttempt bot.bot_token bot.chat_group_id user.telegram_id
              if apiOk then (setBanned db1 event.trader false, [act]) else (db1, [act])
            | none => (db1, [])
          else (db1, [])
        | none => (db1, [])
      else (db1, [])
    | none => (db1, [])
  else
    match process_sell_trade db event.trader event.subject event.share_amount with
    | (db1, should_ban, telegram_id_opt) =>
      if should_ban then
        match telegram_id_opt with
        | some telegram_id =>
          match botFind db1 event.subject with
          | some bot =>
            let act := ModAction.banAttempt bot.bot_token bot.chat_group_id telegram_id
            if apiOk then (setBanned db1 event.trader true, [act]) else (db1, [act])
          | none => (db1, [])
        | none => (db1, [])
      else (db1, [])

/-- Whether an attempted-call list contains an unban (`unbanChatMember`). -/
def hasUnban (acts : List ModAction) : Bool :=
  acts.any fun a => match a with
    | .unbanAttempt _ _ _ => true
    | _ => false

/-- Whether an attempted-call list contains a ban (`banChatMember`). -/
def hasBan (acts : List ModAction) : Bool :=
  acts.any fun a => match a with
    | .banAttempt _ _ _ => true
    | _ => false

/-- One trade applied through the ledger operations, as the sync loop
dispatches it: buys through `process_buy_trade`, sells through
`process_sell_trade` (discarding the ban decision). -/
def applyTrade (db : Db) (e : TradeEvent) : Db :=
  if e.is_buy then process_buy_trade db e.trader e.subject e.share_amount
  else (process_sell_trade db e.trader e.subject e.share_amount).1

/-- A sequence of trades applied in order, each exactly once. -/
def applyTrades (db : Db) : List TradeEvent → Db
  | [] => db
  | e :: rest => applyTrades (applyTrade db e) rest

/-- Sum of the buy amounts of a sequence of events. -/
def sumBuys : List TradeEvent → Int
  | [] => 0
  | e :: rest => (if e.is_buy then (e.share_amount : Int) else 0) + sumBuys rest

/-- Sum of the sell amounts of a sequence of events. -/
def sumSells : List TradeEvent → Int
  | [] => 0
  | e :: rest => (if e.is_buy then 0 else (e.share_amount : Int)) + sumSells rest

/-- `sellsCovered hasBuy evs` holds when every sell in `evs` is preceded
by at least one buy (`hasBuy` records whether a buy occurred already). -/
def sellsCovered (hasBuy : Bool) : List TradeEvent → Bool
  | [] => true
  | e :: rest => (e.is_buy || hasBuy) && sellsCovered (hasBuy || e.is_buy) rest

/-- The sync loop's state (`sync_trade_events`, `src/block_chain/sync.rs:35-89`):
the in-memory cursor `last_synced_block` and the database. -/
structure SyncState where
  last_synced_block : Nat
  db : Db
  deriving Repr, DecidableEq

/-- The external outcomes one loop iteration observes:
`heightFail` — `provider.get_block_number()` errored (backoff, retry);
`fetchFail current` — the height was `current` but `filter.query()` errored;
`iter current events apiOks persistOk` — the height was `current`, the event
query returned `events` (each processed with its own Telegram-call outcome
from `apiOks`), and the `update_last_synced_block` write succeeded
iff `persistOk`. -/
inductive SyncInput where
  | heightFail
  | fetchFail (current : Nat)
  | iter (current : Nat) (events : List TradeEvent) (apiOks : List Bool) (persistOk : Bool)
  deriving Repr, DecidableEq

/-- The batch-processing loop of `sync_trade_events`: every event is fed to
`process_trade_event` sequentially (a failure of one event is logged and the
loop continues). -/
def processBatch (events : List TradeEvent) (db : Db) (apiOks : List Bool) : Db :=
  match events with
  | [] => db
  | e :: rest => processBatch rest (process_trade_event e db (apiOks.headD true)).1 apiOks.tail

/-- The size of one synced block range (`BLOCK_BATCH_SIZE` in
`src/block_chain/sync.rs`). -/
def BLOCK_BATCH_SIZE : Nat := 100

/-- One iteration of the `loop` in `sync_trade_events`
(`src/block_chain/sync.rs:35-89`), as a function of the iteration's
external outcomes: a failed height fetch or event query changes nothing; a
caught-up check (`last_synced_block >= current_block`) changes nothing; an
iteration that fetched events processes them and then persists the
watermark to `end_block = min(last_synced_block + BLOCK_BATCH_SIZE,
current_block)`, advancing the in-memory cursor only when the persist
succeeded. -/
def syncStep (st : SyncState) (inp : SyncInput) : SyncState :=
  match inp with
  | .heightFail => st
  | .fetchFail _ => st
  | .iter current events apiOks persistOk =>
    if st.last_synced_block ≥ current then st
    else
      let endBlock := min (st.last_synced_block + BLOCK_BATCH_SIZE) current
      let db1 := processBatch events st.db apiOks
      if persistOk then
        { last_synced_block := endBlock, db := update_last_synced_block db1 endBlock }
      else
        { st with db := db1 }

/-- A whole run of loop iterations from a state. -/
def syncRun (st : SyncState) (inps : List SyncInput) : SyncState :=
  inps.foldl syncStep st

/-- The persisted watermark of a state (`sync_status.last_synced_block`). -/
def watermark (st : SyncState) : Nat :=
  st.db.sync_status.getD 0

/-- The inclusive block range `filter.from_block(last_synced_block)
.to_block(end_block)` that an iteration at chain height `current` queries
(`src/block_chain/sync.rs:59-62`); ethers treats both bounds as inclusive. -/
def fetchRange (st : SyncState) (current : Nat) : Finset Nat :=
  Finset.Icc st.last_synced_block (min (st.last_synced_block + BLOCK_BATCH_SIZE) current)

/-- The request body of `/verify-signature` (`ChallengeRequest` in
`src/routes/signature.rs`); `user` carries the claimed wallet address in
the canonical form the code compares and stores. -/
structure ChallengeRequest where
  challenge : String
  chat_id : String
  signature : String
  user : String
  deriving Repr, DecidableEq

/-- The response body of `/verify-signature` (`ChallengeResponse`). -/
structure ChallengeResponse where
  success : Bool
  error : Option String
  deriving Repr, DecidableEq

/-- A Telegram call attempted by `handle_verify`: `restrict_chat_member`
granting the send permissions (admission). -/
inductive VerifyAction where
  | restrictAttempt (bot_token chat_group_id user_id : String)
  deriving Repr, DecidableEq

/-- `INSERT INTO user_mappings (address, telegram_id) VALUES ($1,$2)
ON CONFLICT (address) DO NOTHING` (`is_banned` takes its schema default
`FALSE`). -/
def umInsertIfAbsent (db : Db) (address telegram_id : String) : Db :=
  if db.user_mappings.any (fun u => u.address == address) then db
  else { db with user_mappings := db.user_mappings ++ [⟨address, telegram_id, false⟩] }

/-- `handle_verify` (`src/routes/signature.rs:49-169`). External inputs:
`recovered` — the result of `verify_signature(challenge, signature)`
(`none` when hex-decoding, parsing or ECDSA recovery failed, otherwise the
recovered address in the canonical form compared against `req.user`);
`balance` — the on-chain `sharesBalance(subject, user)` read;
`restrictOk` — the outcome of the Telegram `restrict_chat_member` call.
Returns the mutated database, the HTTP response body, and the attempted
Telegram calls. -/
def handle_verify (db : Db) (req : ChallengeRequest) (recovered : Option String)
    (balance : Nat) (restrictOk : Bool) :
    Db × ChallengeResponse × List VerifyAction :=
  match botFindByChat db req.chat_id with
  | none => (db, ⟨false, some "Bot not found for this chat_id"⟩, [])
  | some bot_info =>
    let step : Db × Bool :=
      match recovered with
      | some address =>
        if address = req.user then
          -- address matches: best-effort insert of the binding, then the
          -- live sharesBalance read decides admission
          (umInsertIfAbsent db req.user req.challenge, balance ≠ 0)
        else
          (db, false)  -- "Address mismatch with signature!"
      | none => (db, false)  -- "Verify signature failed"
    let db' := step.1
    let own_shares := step.2
    if own_shares then
      let act := VerifyAction.restrictAttempt bot_info.bot_token bot_info.chat_group_id req.challenge
      if restrictOk then
        (db', ⟨true, none⟩, [act])
      else
        (db', ⟨false, some "Telegram restrict_chat_member failed"⟩, [act])
    else
      -- fall-through: the handler ends with `HttpResponse::Ok` and
      -- `ChallengeResponse { success: true, error: None }`
      (db', ⟨true, none⟩, [])

/-- Whether a character belongs to the standard base64 alphabet. -/
def isBase64Char (c : Char) : Bool :=
  (('A' ≤ c && c ≤ 'Z') || ('a' ≤ c && c ≤ 'z') || ('0' ≤ c && c ≤ '9')
    || c = '+' || c = '/')

/-- Whether `BASE64_STANDARD.decode` accepts a string: length a multiple
of four, every character in the alphabet except for at most two trailing
`=` padding characters. -/
def isValidBase64 (s : String) : Bool :=
  let cs := s.toList
  let pad := (cs.reverse.takeWhile (· = '=')).length
  cs.length % 4 = 0 && pad ≤ 2 && ((cs.take (cs.length - pad)).all isBase64Char)

/-- Whether a hexadecimal digit. -/
def isHexChar (c : Char) : Bool :=
  (('0' ≤ c && c ≤ '9') || ('a' ≤ c && c ≤ 'f') || ('A' ≤ c && c ≤ 'F'))

/-- Whether `SuiAddress::from_str` accepts a string: `0x` followed by
1–64 hexadecimal digits. -/
def isValidSuiAddress (s : String) : Bool :=
  let cs := s.toList
  cs.take 2 = ['0', 'x'] && (cs.drop 2).length ≤ 64 && (cs.drop 2).length ≥ 1
    && (cs.drop 2).all isHexChar

/-- The `Display` form of a parsed `SuiAddress`: `0x` followed by the
64-digit zero-padded lowercase hex of the 32 address bytes. -/
def suiAddressDisplay (s : String) : String :=
  let h := (s.toList.drop 2).map Char.toLower
  String.mk (['0', 'x'] ++ List.replicate (64 - h.length) '0' ++ h)

/-- `SuiBlockchain::verify_signature` (`src/block_chain/sui.rs:431-451`):
base64-decode the signature (error on failure), parse the challenge as a
`SuiAddress` (error on failure), then — per the code's own comment, a
simplification awaiting a real implementation — return
`Ok(format!("0x{}", sui_address))` without inspecting the signature bytes
at all (note `Display` of `SuiAddress` already carries `0x`). -/
def sui_verify_signature (challenge signature : String) : Except String String :=
  if ¬ isValidBase64 signature then .error "cannot decode signature"
  else if ¬ isValidSuiAddress challenge then .error "invalid address format"
  else .ok ("0x" ++ suiAddressDisplay challenge)

/-- The column list of the `trades` table as `init_db`
(`src/db/mod.rs:7-24`) declares it. -/
def tradesColumns : List String := ["trader", "subject", "share_amount"]

/-- The `PRIMARY KEY` of the `trades` table as `init_db` declares it. -/
def tradesPrimaryKey : List String := ["trader", "subject"]

/-- The column list of the `sync_status` table as `init_db` declares it. -/
def syncStatusColumns : List String := ["id", "last_synced_block"]

/-- An empty database (used to instantiate theorems at concrete inputs). -/
def emptyDb : Db := ⟨[], [], [], none⟩

/-- The row-update function of `mapShares` leaves the `(trader, subject)`
key of a row unchanged. -/
theorem tradeKeyMatch_update (t s : String) (f : Int → Int) (r : TradesRow) :
    tradeKeyMatch t s
        (if tradeKeyMatch t s r then { r with share_amount := f r.share_amount } else r)
      = tradeKeyMatch t s r := by
  by_cases h : tradeKeyMatch t s r
  · rw [if_pos h]
    simp [tradeKeyMatch]
  · rw [if_neg h]

/-- `find?` on the key after `mapShares` finds the updated row. -/
theorem find?_mapShares (t s : String) (f : Int → Int) (l : List TradesRow) :
    (mapShares t s f l).find? (tradeKeyMatch t s)
      = (l.find? (tradeKeyMatch t s)).map
          (fun r => if tradeKeyMatch t s r then { r with share_amount := f r.share_amount } else r) := by
  unfold mapShares
  rw [List.find?_map]
  have hpg : (tradeKeyMatch t s ∘ fun r =>
      if tradeKeyMatch t s r then { r with share_amount := f r.share_amount } else r)
      = tradeKeyMatch t s := by
    funext r
    exact tradeKeyMatch_update t s f r
  rw [hpg]

/-- `tradesFind` after the `UPDATE` of `mapShares`. -/
theorem tradesFind_mapShares (db : Db) (t s : String) (f : Int → Int) :
    tradesFind { db with trades := mapShares t s f db.trades } t s
      = (tradesFind db t s).map f := by
  unfold tradesFind
  rw [find?_mapShares]
  cases h : db.trades.find? (tradeKeyMatch t s) with
  | none => rfl
  | some r =>
    have hr := List.find?_some h
    simp [hr]

/-- `process_buy_trade` upserts: the stored amount becomes the prior amount
(`0` when absent) plus the event amount. -/
theorem tradesFind_buy (db : Db) (t s : String) (a : Int) :
    tradesFind (process_buy_trade db t s a) t s = some ((tradesFind db t s).getD 0 + a) := by
  unfold process_buy_trade
  by_cases h : db.trades.any (tradeKeyMatch t s)
  · simp only [h, if_true]
    obtain ⟨r, hmem, hr⟩ := List.any_eq_true.mp h
    have hsome : (db.trades.find? (tradeKeyMatch t s)).isSome :=
      List.find?_isSome.mpr ⟨r, hmem, hr⟩
    obtain ⟨r₀, hr₀⟩ := Option.isSome_iff_exists.mp hsome
    have := tradesFind_mapShares db t s (· + a)
    rw [this]
    unfold tradesFind
    rw [hr₀]
    rfl
  · rw [if_neg h]
    have hnone : db.trades.find? (tradeKeyMatch t s) = none :=
      List.find?_eq_none.mpr fun x hx hpx =>
        h (List.any_eq_true.mpr ⟨x, hx, hpx⟩)
    unfold tradesFind
    show ((db.trades ++ [TradesRow.mk t s a]).find? (tradeKeyMatch t s)).map
        (fun r => r.share_amount)
      = some (((db.trades.find? (tradeKeyMatch t s)).map (fun r => r.share_amount)).getD 0 + a)
    rw [List.find?_append, hnone]
    simp [tradeKeyMatch]

/-- `process_buy_trade` changes only the `trades` table. -/
theorem process_buy_trade_frame (db : Db) (t s : String) (a : Int) :
    (process_buy_trade db t s a).user_mappings = db.user_mappings ∧
    (process_buy_trade db t s a).telegram_bots = db.telegram_bots ∧
    (process_buy_trade db t s a).sync_status = db.sync_status := by
  unfold process_buy_trade
  by_cases h : db.trades.any (tradeKeyMatch t s) <;> simp [h]

/-- The database component of `process_sell_trade`: unchanged when no row
matches, otherwise the matched row is decremented (the same `UPDATE` runs
on every branch of the ban decision). -/
theorem process_sell_trade_db (db : Db) (t s : String) (a : Int) :
    (process_sell_trade db t s a).1
      = match tradesFind db t s with
        | none => db
        | some _ => { db with trades := mapShares t s (· - a) db.trades } := by
  unfold process_sell_trade
  cases h : tradesFind db t s with
  | none => rfl
  | some b =>
    by_cases hz : b - a = 0
    · simp only [hz, if_true]
      cases umFind db t <;> rfl
    · simp only [hz, if_false]

/-- `tradesFind` after a sell that found its row. -/
theorem tradesFind_sell (db : Db) (t s : String) (a b : Int)
    (h : tradesFind db t s = some b) :
    tradesFind (process_sell_trade db t s a).1 t s = some (b - a) := by
  rw [process_sell_trade_db, h]
  have := tradesFind_mapShares db t s (· - a)
  rw [this, h]
  rfl

/-- Once a `(trader, subject)` row exists, every further event for the pair
applies its amount as an exact delta: the stored amount after a sequence is
the prior amount plus the buys minus the sells. -/
theorem tradesFind_applyTrades_of_some (t s : String) :
    ∀ (evs : List TradeEvent) (db : Db) (b : Int),
      tradesFind db t s = some b →
      (∀ e ∈ evs, e.trader = t ∧ e.subject = s) →
      tradesFind (applyTrades db evs) t s = some (b + (sumBuys evs - sumSells evs))
  | [], db, b, h, _ => by simpa [applyTrades, sumBuys, sumSells] using h
  | e :: rest, db, b, h, hall => by
    obtain ⟨het, hes⟩ := hall e (by simp)
    have hrest : ∀ e' ∈ rest, e'.trader = t ∧ e'.subject = s :=
      fun e' he' => hall e' (by simp [he'])
    by_cases hb : e.is_buy
    · have h1 : tradesFind (applyTrade db e) t s = some (b + e.share_amount) := by
        unfold applyTrade
        rw [if_pos hb, het, hes, tradesFind_buy, h]
        rfl
      have := tradesFind_applyTrades_of_some t s rest (applyTrade db e)
        (b + e.share_amount) h1 hrest
      rw [applyTrades, this]
      simp [sumBuys, sumSells, hb]
      ring_nf
    · have h1 : tradesFind (applyTrade db e) t s = some (b - e.share_amount) := by
        unfold applyTrade
        rw [if_neg hb, het, hes]
        exact tradesFind_sell db t s e.share_amount b h
      have := tradesFind_applyTrades_of_some t s rest (applyTrade db e)
        (b - e.share_amount) h1 hrest
      rw [applyTrades, this]
      simp [sumBuys, sumSells, hb]
      ring_nf

/-- Starting from no row, a non-empty sequence in which every sell is
preceded by a buy leaves the row at buys minus sells. -/
theorem tradesFind_applyTrades_of_none (t s : String) (evs : List TradeEvent) (db : Db)
    (hnone : tradesFind db t s = none)
    (hpair : ∀ e ∈ evs, e.trader = t ∧ e.subject = s)
    (hwf : sellsCovered false evs = true)
    (hne : evs ≠ []) :
    tradesFind (applyTrades db evs) t s = some (sumBuys evs - sumSells evs) := by
  match evs with
  | [] => exact absurd rfl hne
  | e :: rest =>
    obtain ⟨het, hes⟩ := hpair e (by simp)
    have hb : e.is_buy = true := by
      by_contra hcon
      have hb' : e.is_buy = false := by
        cases hxy : e.is_buy
        · rfl
        · exact absurd hxy hcon
      simp [sellsCovered, hb'] at hwf
    have h1 : tradesFind (applyTrade db e) t s = some ((e.share_amount : Int)) := by
      unfold applyTrade
      rw [if_pos hb, het, hes, tradesFind_buy, hnone]
      simp
    have hrest : ∀ e' ∈ rest, e'.trader = t ∧ e'.subject = s :=
      fun e' he' => hpair e' (by simp [he'])
    have := tradesFind_applyTrades_of_some t s rest (applyTrade db e)
      (e.share_amount) h1 hrest
    rw [applyTrades, this]
    simp [sumBuys, sumSells, hb]
    ring_nf

/-- C1 (amended): for every sequence of buy and sell events for a fixed
(trader, subject) pair, applied in order and each exactly once via
`process_buy_trade` / `process_sell_trade`, IN WHICH EVERY SELL IS PRECEDED
BY AT LEAST ONE BUY, the resulting stored `share_amount` equals the sum of
the buy amounts minus the sum of the sell amounts (buys upsert with
insert-on-absent seeded by the event amount; sells subtract without
clamping). The restriction is forced: a sell arriving before any buy finds
no row, is dropped without effect, and breaks the sum law (see the
counterexample). -/
theorem trade_sequence_linearity (evs : List TradeEvent) (db : Db) (t s : String)
    (hnone : tradesFind db t s = none)
    (hpair : ∀ e ∈ evs, e.trader = t ∧ e.subject = s)
    (hwf : sellsCovered false evs = true) :
    get_user_subject_shares (applyTrades db evs) t s = sumBuys evs - sumSells evs := by
  match evs with
  | [] => simp [applyTrades, get_user_subject_shares, hnone, sumBuys, sumSells]
  | e :: rest =>
    have := tradesFind_applyTrades_of_none t s (e :: rest) db hnone hpair hwf (by simp)
    simp [get_user_subject_shares, this]

/-- C1 witness: the amended law evaluated on a concrete sequence
(buy 5 then sell 2 leaves 3 stored). -/
theorem trade_sequence_linearity_witness :
    get_user_subject_shares
        (applyTrades emptyDb
          [⟨"0xaa", "0xbb", true, 5⟩, ⟨"0xaa", "0xbb", false, 2⟩]) "0xaa" "0xbb"
      = sumBuys [⟨"0xaa", "0xbb", true, 5⟩, ⟨"0xaa", "0xbb", false, 2⟩]
        - sumSells [⟨"0xaa", "0xbb", true, 5⟩, ⟨"0xaa", "0xbb", false, 2⟩] :=
  trade_sequence_linearity
    [⟨"0xaa", "0xbb", true, 5⟩, ⟨"0xaa", "0xbb", false, 2⟩] emptyDb "0xaa" "0xbb"
    (by decide) (by decide) (by decide)

/-- C1 counterexample: the claim as stated — over ALL sequences — is false.
A sell of 5 arriving before any buy finds no row and is dropped; the buy of
3 that follows leaves 3 stored, but the sum of buys minus the sum of sells
is −2. -/
theorem trade_sequence_linearity_counterexample :
    get_user_subject_shares
        (applyTrades emptyDb
          [⟨"0xaa", "0xbb", false, 5⟩, ⟨"0xaa", "0xbb", true, 3⟩]) "0xaa" "0xbb"
      = 3 ∧
    sumBuys [⟨"0xaa", "0xbb", false, 5⟩, ⟨"0xaa", "0xbb", true, 3⟩]
      - sumSells [⟨"0xaa", "0xbb", false, 5⟩, ⟨"0xaa", "0xbb", true, 3⟩] = -2 ∧
    (3 : Int) ≠ -2 := by
  refine ⟨by decide, by decide, by decide⟩

/-- C10: a sell for a pair with no existing ledger row leaves the whole
database unchanged and returns `(false, None)` — no row is created or
mutated and no ban decision is produced. -/
theorem sell_without_row_is_noop (db : Db) (t s : String) (a : Int)
    (h : tradesFind db t s = none) :
    process_sell_trade db t s a = (db, false, none) := by
  unfold process_sell_trade
  rw [h]

/-- C10 witness: a sell against the empty database is a no-op. -/
theorem sell_without_row_is_noop_witness :
    process_sell_trade emptyDb "0xaa" "0xbb" 4 = (emptyDb, false, none) :=
  sell_without_row_is_noop emptyDb "0xaa" "0xbb" 4 (by decide)

/-- C8: replaying a batch of trade events through the trade processor
against a ledger already updated by that same batch doubles the affected
balance: one pass stores the batch's net amount, the second pass stores
twice that amount, and for a batch of non-zero net the two results differ
— the processor is not idempotent per event (each application re-adds the
raw amount as a delta). -/
theorem replay_batch_doubles (evs : List TradeEvent) (db : Db) (t s : String)
    (hnone : tradesFind db t s = none)
    (hpair : ∀ e ∈ evs, e.trader = t ∧ e.subject = s)
    (hwf : sellsCovered false evs = true)
    (hnz : sumBuys evs - sumSells evs ≠ 0) :
    get_user_subject_shares (applyTrades db evs) t s = sumBuys evs - sumSells evs ∧
    get_user_subject_shares (applyTrades (applyTrades db evs) evs) t s
      = 2 * (sumBuys evs - sumSells evs) ∧
    get_user_subject_shares (applyTrades (applyTrades db evs) evs) t s
      ≠ get_user_subject_shares (applyTrades db evs) t s := by
  have hne : evs ≠ [] := by
    intro hcon
    rw [hcon] at hnz
    exact hnz (by decide)
  have h1 : tradesFind (applyTrades db evs) t s
      = some (sumBuys evs - sumSells evs) :=
    tradesFind_applyTrades_of_none t s evs db hnone hpair hwf hne
  have h2 : tradesFind (applyTrades (applyTrades db evs) evs) t s
      = some (2 * (sumBuys evs - sumSells evs)) := by
    have := tradesFind_applyTrades_of_some t s evs (applyTrades db evs)
      (sumBuys evs - sumSells evs) h1 hpair
    rw [this]
    ring_nf
  refine ⟨by simp [get_user_subject_shares, h1], by simp [get_user_subject_shares, h2], ?_⟩
  simp [get_user_subject_shares, h1, h2]
  intro hcon
  omega

/-- C8 witness: the batch [buy 5, sell 2] (net 3) replayed gives 6 ≠ 3. -/
theorem replay_batch_doubles_witness :
    get_user_subject_shares
        (applyTrades emptyDb
          [⟨"0xaa", "0xbb", true, 5⟩, ⟨"0xaa", "0xbb", false, 2⟩]) "0xaa" "0xbb"
      = sumBuys [⟨"0xaa", "0xbb", true, 5⟩, ⟨"0xaa", "0xbb", false, 2⟩]
        - sumSells [⟨"0xaa", "0xbb", true, 5⟩, ⟨"0xaa", "0xbb", false, 2⟩] ∧
    get_user_subject_shares
        (applyTrades (applyTrades emptyDb
            [⟨"0xaa", "0xbb", true, 5⟩, ⟨"0xaa", "0xbb", false, 2⟩])
          [⟨"0xaa", "0xbb", true, 5⟩, ⟨"0xaa", "0xbb", false, 2⟩]) "0xaa" "0xbb"
      = 2 * (sumBuys [⟨"0xaa", "0xbb", true, 5⟩, ⟨"0xaa", "0xbb", false, 2⟩]
          - sumSells [⟨"0xaa", "0xbb", true, 5⟩, ⟨"0xaa", "0xbb", false, 2⟩]) ∧
    get_user_subject_shares
        (applyTrades (applyTrades emptyDb
            [⟨"0xaa", "0xbb", true, 5⟩, ⟨"0xaa", "0xbb", false, 2⟩])
          [⟨"0xaa", "0xbb", true, 5⟩, ⟨"0xaa", "0xbb", false, 2⟩]) "0xaa" "0xbb"
      ≠ get_user_subject_shares
          (applyTrades emptyDb
            [⟨"0xaa", "0xbb", true, 5⟩, ⟨"0xaa", "0xbb", false, 2⟩]) "0xaa" "0xbb" :=
  replay_batch_doubles
    [⟨"0xaa", "0xbb", true, 5⟩, ⟨"0xaa", "0xbb", false, 2⟩] emptyDb "0xaa" "0xbb"
    (by decide) (by decide) (by decide) (by decide)

/-- `process_buy_trade` does not change the identity bindings. -/
theorem umFind_buy (db : Db) (t s : String) (a : Int) (addr : String) :
    umFind (process_buy_trade db t s a) addr = umFind db addr := by
  unfold umFind
  rw [(process_buy_trade_frame db t s a).1]

/-- `process_buy_trade` does not change the bot registrations. -/
theorem botFind_buy (db : Db) (t s : String) (a : Int) (subj : String) :
    botFind (process_buy_trade db t s a) subj = botFind db subj := by
  unfold botFind
  rw [(process_buy_trade_frame db t s a).2.1]

/-- C2: a sell produces the ban decision `(true, Some identity)` exactly
when the post-mutation balance for the pair is zero and the trader has a
bound messaging identity — `process_sell_trade` returns `(true, Some id)`
in exactly that case and `(false, None)` otherwise, and the dispatcher
(`process_trade_event`, sell branch) attempts a `banChatMember` call only
when the flag is `true`. -/
theorem sell_ban_decision (db : Db) (t s : String) (a : Nat) (ok : Bool) :
    ((process_sell_trade db t s (a : Int)).2.1 = true ↔
      (∃ b : Int, tradesFind db t s = some b ∧ b - (a : Int) = 0 ∧ (umFind db t).isSome)) ∧
    ((process_sell_trade db t s (a : Int)).2.1 = true →
      (process_sell_trade db t s (a : Int)).2.2
        = (umFind db t).map (fun u => u.telegram_id)) ∧
    ((process_sell_trade db t s (a : Int)).2.1 = false →
      (process_sell_trade db t s (a : Int)).2.2 = none) ∧
    (hasBan (process_trade_event ⟨t, s, false, a⟩ db ok).2 = true →
      (process_sell_trade db t s (a : Int)).2.1 = true) := by
  cases h : tradesFind db t s with
  | none =>
    refine ⟨?_, ?_, ?_, ?_⟩
    · simp [process_sell_trade, h]
    · simp [process_sell_trade, h]
    · simp [process_sell_trade, h]
    · simp [process_trade_event, process_sell_trade, h, hasBan]
  | some b =>
    by_cases hz : b - (a : Int) = 0
    · cases hu : umFind db t with
      | some u =>
        refine ⟨?_, ?_, ?_, ?_⟩
        · simp [process_sell_trade, h, hz, hu]
        · simp [process_sell_trade, h, hz, hu]
        · simp [process_sell_trade, h, hz, hu]
        · intro _
          simp [process_sell_trade, h, hz, hu]
      | none =>
        refine ⟨?_, ?_, ?_, ?_⟩
        · simp [process_sell_trade, h, hz, hu]
        · simp [process_sell_trade, h, hz, hu]
        · simp [process_sell_trade, h, hz, hu]
        · simp [process_trade_event, process_sell_trade, h, hz, hu, hasBan]
    · refine ⟨?_, ?_, ?_, ?_⟩
      · simp [process_sell_trade, h, hz]
      · simp [process_sell_trade, h, hz]
      · simp [process_sell_trade, h, hz]
      · simp [process_trade_event, process_sell_trade, h, hz, hasBan]

/-- C3 (amended): on a buy, an `unbanChatMember` call is attempted if and
only if the trader's identity binding exists and is marked banned, the
trader's resulting balance for the subject (read back after the buy is
applied) is strictly positive, AND a telegram bot is registered for the
subject — the bot registration is an extra, code-imposed condition the
claim omits; and a sell never attempts an unban. -/
theorem buy_unban_decision (e : TradeEvent) (db : Db) (ok : Bool) :
    (e.is_buy = true →
      (hasUnban (process_trade_event e db ok).2 = true ↔
        ((∃ u, umFind db e.trader = some u ∧ u.is_banned = true) ∧
          0 < get_user_subject_shares
                (process_buy_trade db e.trader e.subject (e.share_amount : Int))
                e.trader e.subject ∧
          (botFind db e.subject).isSome))) ∧
    (e.is_buy = false → hasUnban (process_trade_event e db ok).2 = false) := by
  constructor
  · intro hb
    have humb := umFind_buy db e.trader e.subject (e.share_amount : Int) e.trader
    have hbotb := botFind_buy db e.trader e.subject (e.share_amount : Int) e.subject
    have hbal := tradesFind_buy db e.trader e.subject (e.share_amount : Int)
    cases hu : umFind db e.trader with
    | none =>
      have hu' : umFind (process_buy_trade db e.trader e.subject (e.share_amount : Int))
          e.trader = none := by rw [humb, hu]
      simp [process_trade_event, hb, hu', hu, hasUnban]
    | some u =>
      have hu' : umFind (process_buy_trade db e.trader e.subject (e.share_amount : Int))
          e.trader = some u := by rw [humb, hu]
      cases hban : u.is_banned with
      | false =>
        simp [process_trade_event, hb, hu', hu, hban, hasUnban]
      | true =>
        by_cases hpos : (0 : Int) < (tradesFind db e.trader e.subject).getD 0
            + (e.share_amount : Int)
        · cases hbot : botFind db e.subject with
          | none =>
            have hbot' : botFind (process_buy_trade db e.trader e.subject
                (e.share_amount : Int)) e.subject = none := by rw [hbotb, hbot]
            simp [process_trade_event, hb, hu', hu, hban, hbal, hpos, hbot', hbot, hasUnban]
          | some bot =>
            have hbot' : botFind (process_buy_trade db e.trader e.subject
                (e.share_amount : Int)) e.subject = some bot := by rw [hbotb, hbot]
            cases ok <;>
              simp [process_trade_event, hb, hu', hu, hban, hbal, hpos, hbot', hbot,
                hasUnban, get_user_subject_shares]
        · simp [process_trade_event, hb, hu', hu, hban, hbal, hpos, hasUnban,
            get_user_subject_shares]
  · intro hb
    have hb' : e.is_buy = false := hb
    unfold process_trade_event
    rw [if_neg (by simp [hb'])]
    rcases hps : process_sell_trade db e.trader e.subject (e.share_amount : Int)
      with ⟨db1, sb, tid⟩
    cases sb
    · simp [hasUnban]
    · cases tid with
      | none => simp [hasUnban]
      | some t =>
        cases hbot : botFind db1 e.subject with
        | none => simp [hasUnban, hbot]
        | some bot => cases ok <;> simp [hasUnban, hbot]

/-- C3 counterexample: the claim's "if and only if" fails as stated — a
banned, bound trader whose buy leaves a positive balance gets NO unban
attempt when no telegram bot is registered for the subject. -/
theorem buy_unban_decision_counterexample :
    umFind ⟨[], [⟨"0xaa", "777", true⟩], [], none⟩ "0xaa"
        = some ⟨"0xaa", "777", true⟩ ∧
    (0 : Int) < get_user_subject_shares
        (process_buy_trade ⟨[], [⟨"0xaa", "777", true⟩], [], none⟩ "0xaa" "0xbb" 5)
        "0xaa" "0xbb" ∧
    (process_trade_event ⟨"0xaa", "0xbb", true, 5⟩
        ⟨[], [⟨"0xaa", "777", true⟩], [], none⟩ true).2 = [] := by
  refine ⟨by decide, by decide, by decide⟩

/-- `setBanned` does not touch the watermark. -/
theorem setBanned_sync_status (db : Db) (addr : String) (b : Bool) :
    (setBanned db addr b).sync_status = db.sync_status := rfl

/-- `process_sell_trade` does not touch the watermark. -/
theorem process_sell_trade_sync_status (db : Db) (t s : String) (a : Int) :
    (process_sell_trade db t s a).1.sync_status = db.sync_status := by
  rw [process_sell_trade_db]
  cases tradesFind db t s <;> rfl

/-- `process_trade_event` mutates `trades` and `user_mappings` only; the
`sync_status` watermark is untouched. -/
theorem process_trade_event_sync_status (e : TradeEvent) (db : Db) (ok : Bool) :
    (process_trade_event e db ok).1.sync_status = db.sync_status := by
  have hbuy := (process_buy_trade_frame db e.trader e.subject (e.share_amount : Int)).2.2
  have hsell := process_sell_trade_sync_status db e.trader e.subject (e.share_amount : Int)
  unfold process_trade_event
  by_cases hb : e.is_buy
  · rw [if_pos hb]
    dsimp only
    split
    · split
      · split
        · split
          · split
            · split <;> simp [setBanned_sync_status, hbuy]
            · exact hbuy
          · exact hbuy
        · exact hbuy
      · exact hbuy
    · exact hbuy
  · rw [if_neg hb]
    dsimp only
    split
    · split
      · split
        · split
          · simp [setBanned_sync_status, hsell]
          · exact hsell
        · exact hsell
      · exact hsell
    · exact hsell

/-- The batch-processing loop does not touch the watermark. -/
theorem processBatch_sync_status (events : List TradeEvent) (db : Db) (apiOks : List Bool) :
    (processBatch events db apiOks).sync_status = db.sync_status := by
  induction events generalizing db apiOks with
  | nil => rfl
  | cons e rest ih =>
    rw [processBatch, ih, process_trade_event_sync_status]

/-- One loop iteration preserves "stored watermark = in-memory cursor" and
never decreases the cursor. -/
theorem syncStep_invariant (st : SyncState) (inp : SyncInput)
    (h : st.db.sync_status = some st.last_synced_block) :
    (syncStep st inp).db.sync_status = some (syncStep st inp).last_synced_block ∧
    st.last_synced_block ≤ (syncStep st inp).last_synced_block := by
  cases inp with
  | heightFail => exact ⟨h, le_refl _⟩
  | fetchFail c => exact ⟨h, le_refl _⟩
  | iter current events apiOks persistOk =>
    simp only [syncStep]
    by_cases hc : st.last_synced_block ≥ current
    · rw [if_pos hc]
      exact ⟨h, le_refl _⟩
    · rw [if_neg hc]
      by_cases hp : persistOk = true
      · rw [if_pos hp]
        constructor
        · show (update_last_synced_block (processBatch events st.db apiOks) _).sync_status
            = some _
          unfold update_last_synced_block
          dsimp only
          rw [processBatch_sync_status, h]
          rfl
        · show st.last_synced_block ≤ min (st.last_synced_block + BLOCK_BATCH_SIZE) current
          have hlt : st.last_synced_block < current := Nat.lt_of_not_le hc
          simp only [BLOCK_BATCH_SIZE]
          omega
      · rw [if_neg hp]
        refine ⟨?_, le_refl _⟩
        show (processBatch events st.db apiOks).sync_status = some st.last_synced_block
        rw [processBatch_sync_status, h]

/-- C4: the persisted watermark never regresses. Given the invariant that
the stored `sync_status` value equals the in-memory cursor (established by
the `get_last_synced_block` bootstrap, third conjunct), any sequence of
iterations — failed height fetches, failed event queries and failed
watermark writes included — keeps the invariant and leaves the persisted
watermark at least its previous value; and the in-memory cursor changes in
a step only when that step's watermark persist succeeded (second
conjunct). Instantiating `st` at any reachable state gives the
monotonicity of the persisted value between any two observation times. -/
theorem watermark_never_regresses (st : SyncState) (inps : List SyncInput)
    (hinv : st.db.sync_status = some st.last_synced_block) :
    ((syncRun st inps).db.sync_status = some (syncRun st inps).last_synced_block ∧
      watermark st ≤ watermark (syncRun st inps)) ∧
    (∀ (st' : SyncState) (inp : SyncInput),
      (syncStep st' inp).last_synced_block ≠ st'.last_synced_block →
      ∃ current events apiOks, inp = SyncInput.iter current events apiOks true) ∧
    (∀ (db : Db) (start : Nat),
      (get_last_synced_block db start).2.sync_status
        = some (get_last_synced_block db start).1) := by
  have main : ∀ (l : List SyncInput) (s : SyncState),
      s.db.sync_status = some s.last_synced_block →
      (syncRun s l).db.sync_status = some (syncRun s l).last_synced_block ∧
      s.last_synced_block ≤ (syncRun s l).last_synced_block := by
    intro l
    induction l with
    | nil => intro s h; exact ⟨h, le_refl _⟩
    | cons i rest ih =>
      intro s h
      have hstep := syncStep_invariant s i h
      have hrest := ih (syncStep s i) hstep.1
      exact ⟨hrest.1, le_trans hstep.2 hrest.2⟩
  refine ⟨⟨(main inps st hinv).1, ?_⟩, ?_, ?_⟩
  · have h1 := (main inps st hinv).1
    have h2 := (main inps st hinv).2
    unfold watermark
    rw [hinv, h1]
    simpa using h2
  · intro st' inp hne
    cases inp with
    | heightFail => exact absurd rfl hne
    | fetchFail c => exact absurd rfl hne
    | iter current events apiOks persistOk =>
      cases persistOk with
      | true => exact ⟨current, events, apiOks, rfl⟩
      | false =>
        exfalso
        apply hne
        simp only [syncStep]
        by_cases hc : st'.last_synced_block ≥ current
        · rw [if_pos hc]
        · rw [if_neg hc]
          simp
  · intro db start
    unfold get_last_synced_block
    cases h : db.sync_status with
    | none => rfl
    | some v => exact h

/-- C4 witness: a successful iteration to block 100 followed by a failed
height fetch, from a freshly bootstrapped state at block 0. -/
theorem watermark_never_regresses_witness :
    ((syncRun ⟨0, ⟨[], [], [], some 0⟩⟩
          [SyncInput.iter 200 [] [] true, SyncInput.heightFail]).db.sync_status
        = some (syncRun ⟨0, ⟨[], [], [], some 0⟩⟩
          [SyncInput.iter 200 [] [] true, SyncInput.heightFail]).last_synced_block ∧
      watermark ⟨0, ⟨[], [], [], some 0⟩⟩
        ≤ watermark (syncRun ⟨0, ⟨[], [], [], some 0⟩⟩
            [SyncInput.iter 200 [] [] true, SyncInput.heightFail])) ∧
    (∀ (st' : SyncState) (inp : SyncInput),
      (syncStep st' inp).last_synced_block ≠ st'.last_synced_block →
      ∃ current events apiOks, inp = SyncInput.iter current events apiOks true) ∧
    (∀ (db : Db) (start : Nat),
      (get_last_synced_block db start).2.sync_status
        = some (get_last_synced_block db start).1) :=
  watermark_never_regresses ⟨0, ⟨[], [], [], some 0⟩⟩
    [SyncInput.iter 200 [] [] true, SyncInput.heightFail] rfl

/-- C5 (amended): consecutive successful fetch ranges are NOT disjoint —
they overlap in exactly the boundary block. A successful iteration at
height `c1` queries the inclusive range
`[last_synced_block, min(last_synced_block + BLOCK_BATCH_SIZE, c1)]` and
persists the end block; the next iteration's filter starts
`from_block(end)` again, so the two ranges share exactly that one block
(and events emitted in it are fetched twice). -/
theorem consecutive_fetch_ranges_overlap (st : SyncState) (c1 c2 : Nat)
    (events : List TradeEvent) (apiOks : List Bool)
    (h1 : st.last_synced_block < c1)
    (h2 : (syncStep st (SyncInput.iter c1 events apiOks true)).last_synced_block < c2) :
    (syncStep st (SyncInput.iter c1 events apiOks true)).last_synced_block
      = min (st.last_synced_block + BLOCK_BATCH_SIZE) c1 ∧
    fetchRange st c1 ∩ fetchRange (syncStep st (SyncInput.iter c1 events apiOks true)) c2
      = {min (st.last_synced_block + BLOCK_BATCH_SIZE) c1} := by
  have hst : (syncStep st (SyncInput.iter c1 events apiOks true)).last_synced_block
      = min (st.last_synced_block + BLOCK_BATCH_SIZE) c1 := by
    simp only [syncStep]
    rw [if_neg (Nat.not_le.mpr h1)]
    simp
  refine ⟨hst, ?_⟩
  rw [hst] at h2
  ext x
  simp only [fetchRange, hst, Finset.mem_inter, Finset.mem_Icc, Finset.mem_singleton,
    BLOCK_BATCH_SIZE] at *
  omega

/-- C5 counterexample: the ranges covered by two consecutive successful
fetch iterations are not disjoint. From cursor 0 at chain height 200 the
first iteration queries blocks [0,100] and persists 100; the second
queries [100,200] — block 100 is fetched by both. -/
theorem consecutive_fetch_ranges_overlap_counterexample :
    fetchRange ⟨0, ⟨[], [], [], some 0⟩⟩ 200 ∩
        fetchRange (syncStep ⟨0, ⟨[], [], [], some 0⟩⟩ (SyncInput.iter 200 [] [] true)) 200
      = ({100} : Finset Nat) ∧
    (100 : Nat) ∈ fetchRange ⟨0, ⟨[], [], [], some 0⟩⟩ 200 ∧
    (100 : Nat) ∈ fetchRange
        (syncStep ⟨0, ⟨[], [], [], some 0⟩⟩ (SyncInput.iter 200 [] [] true)) 200 := by
  refine ⟨by decide, by decide, by decide⟩

/-- C5 witness: the amended statement at cursor 0, heights 200 then 300. -/
theorem consecutive_fetch_ranges_overlap_witness :
    (syncStep ⟨0, ⟨[], [], [], some 0⟩⟩ (SyncInput.iter 200 [] [] true)).last_synced_block
      = min (0 + BLOCK_BATCH_SIZE) 200 ∧
    fetchRange ⟨0, ⟨[], [], [], some 0⟩⟩ 200 ∩
        fetchRange (syncStep ⟨0, ⟨[], [], [], some 0⟩⟩ (SyncInput.iter 200 [] [] true)) 300
      = {min (0 + (BLOCK_BATCH_SIZE : Nat)) 200} :=
  consecutive_fetch_ranges_overlap ⟨0, ⟨[], [], [], some 0⟩⟩ 200 300 [] []
    (by decide) (by decide)

/-- C6 (code bug): a verification request whose signature recovers to an
address different from the claimed user address inserts no identity
binding into `user_mappings` and attempts no moderation call — but the
handler's fall-through response reports `success := true` with no error,
not the failure outcome the spec requires ("fail closed, return false").
Evaluated at a concrete failing input: a bot is registered for the chat,
recovery yields `0xaaaa`, the claimed user is `0xbbbb`. -/
theorem verify_mismatch_reports_success :
    handle_verify ⟨[], [], [⟨"0xsub", "tok", "chat1"⟩], none⟩
        ⟨"12345", "chat1", "deadbeef", "0xbbbb"⟩ (some "0xaaaa") 7 true
      = (⟨[], [], [⟨"0xsub", "tok", "chat1"⟩], none⟩,
         ⟨true, none⟩, []) := by
  decide

/-- C7 (code bug): the Move-based (Sui) `verify_signature` performs no
recovery at all. For any base64-decodable signature it returns `Ok` with
the address parsed from the challenge: a garbage 3-byte signature
(`"AAAA"`, the base64 of three zero bytes — no Sui signature scheme has
3-byte signatures) is accepted rather than rejected as invalid, and two
different signatures "recover" to the same address. -/
theorem sui_verify_ignores_signature :
    sui_verify_signature
        "0x0000000000000000000000000000000000000000000000000000000000000001" "AAAA"
      = Except.ok ("0x" ++ suiAddressDisplay
          "0x0000000000000000000000000000000000000000000000000000000000000001") ∧
    sui_verify_signature
        "0x0000000000000000000000000000000000000000000000000000000000000001" "AAAA"
      = sui_verify_signature
          "0x0000000000000000000000000000000000000000000000000000000000000001" "BBBB" ∧
    ("AAAA" : String) ≠ "BBBB" := by
  refine ⟨rfl, rfl, by decide⟩

/-- The per-key row update of `mapShares` preserves the key predicate. -/
theorem tradeKeyMatch_comp_update (t s : String) (f : Int → Int) :
    (tradeKeyMatch t s ∘ fun r =>
        if tradeKeyMatch t s r then { r with share_amount := f r.share_amount } else r)
      = tradeKeyMatch t s :=
  funext fun r => tradeKeyMatch_update t s f r

/-- The `trades` list after a buy that found its row is the mapped list. -/
theorem process_buy_trade_trades_of_any (db : Db) (t s : String) (b : Int)
    (h : db.trades.any (tradeKeyMatch t s) = true) :
    (process_buy_trade db t s b).trades = mapShares t s (· + b) db.trades := by
  unfold process_buy_trade
  rw [if_pos h]

/-- `mapShares` does not change how many rows match the key. -/
theorem countP_mapShares (t s : String) (f : Int → Int) (l : List TradesRow) :
    (mapShares t s f l).countP (tradeKeyMatch t s) = l.countP (tradeKeyMatch t s) := by
  unfold mapShares
  rw [List.countP_map, tradeKeyMatch_comp_update]

/-- C9 counterexample: ledger rows are NOT keyed per chain. The schema's
`trades` key is `(trader, subject)` — `chain_id` is not even a column —
and there is a single shared `sync_status` watermark: a second engine's
watermark write (to 7) overwrites the first engine's (10), and two buys
for the same `(trader, subject)` issued by different chains' engines merge
into one same row (share 10), since `process_buy_trade` takes no chain. -/
theorem ledger_not_keyed_by_chain_counterexample :
    tradesPrimaryKey = ["trader", "subject"] ∧
    "chain_id" ∉ tradesColumns ∧
    update_last_synced_block (update_last_synced_block ⟨[], [], [], some 5⟩ 10) 7
      = (⟨[], [], [], some 7⟩ : Db) ∧
    (process_buy_trade (process_buy_trade ⟨[], [], [], none⟩ "0xaa" "0xbb" 4)
        "0xaa" "0xbb" 6).trades
      = [⟨"0xaa", "0xbb", 10⟩] := by
  refine ⟨rfl, by decide, by decide, by decide⟩

/-- C9 (amended): ledger rows are uniquely keyed by `(trader, subject)`
only, and the watermark is one shared `sync_status` slot. The db
operations take no chain identifier at all, so writes issued by different
chains' engines for the same `(trader, subject)` upsert the same single
row, and every engine's watermark write targets the same row (the later
write wins). -/
theorem ledger_keyed_by_trader_subject (db : Db) (t s : String) (a b : Int) (m n : Nat)
    (h : tradesFind db t s = none) :
    tradesPrimaryKey = ["trader", "subject"] ∧
    tradesFind (process_buy_trade (process_buy_trade db t s a) t s b) t s = some (a + b) ∧
    (process_buy_trade (process_buy_trade db t s a) t s b).trades.countP
        (tradeKeyMatch t s) = 1 ∧
    update_last_synced_block (update_last_synced_block db m) n
      = update_last_synced_block db n := by
  have hfind : db.trades.find? (tradeKeyMatch t s) = none := by
    unfold tradesFind at h
    exact Option.map_eq_none'.mp h
  have hany : db.trades.any (tradeKeyMatch t s) = false := by
    rw [Bool.eq_false_iff]
    intro hx
    obtain ⟨x, hm, hp⟩ := List.any_eq_true.mp hx
    exact (List.find?_eq_none.mp hfind x hm) hp
  refine ⟨rfl, ?_, ?_, ?_⟩
  · rw [tradesFind_buy, tradesFind_buy, h]
    simp
  · have hcount0 : db.trades.countP (tradeKeyMatch t s) = 0 :=
      List.countP_eq_zero.mpr fun x hm hp => (List.find?_eq_none.mp hfind x hm) hp
    have hrow : tradeKeyMatch t s (TradesRow.mk t s a) = true := by
      simp [tradeKeyMatch]
    have htr1 : (process_buy_trade db t s a).trades = db.trades ++ [TradesRow.mk t s a] := by
      unfold process_buy_trade
      rw [hany]
      simp
    have hany1 : (process_buy_trade db t s a).trades.any (tradeKeyMatch t s) = true := by
      rw [htr1]
      exact List.any_eq_true.mpr ⟨TradesRow.mk t s a, by simp, hrow⟩
    rw [process_buy_trade_trades_of_any _ _ _ _ hany1, countP_mapShares, htr1,
      List.countP_append, hcount0]
    simp [List.countP_cons, hrow]
  · unfold update_last_synced_block
    cases hds : db.sync_status <;> simp [hds]

/-- C9 witness: the amended statement at the empty database with two buys
of 4 and 6 and two watermark writes of 10 then 7. -/
theorem ledger_keyed_by_trader_subject_witness :
    tradesPrimaryKey = ["trader", "subject"] ∧
    tradesFind (process_buy_trade (process_buy_trade emptyDb "0xaa" "0xbb" 4)
        "0xaa" "0xbb" 6) "0xaa" "0xbb" = some (4 + 6) ∧
    (process_buy_trade (process_buy_trade emptyDb "0xaa" "0xbb" 4)
        "0xaa" "0xbb" 6).trades.countP (tradeKeyMatch "0xaa" "0xbb") = 1 ∧
    update_last_synced_block (update_last_synced_block emptyDb 10) 7
      = update_last_synced_block emptyDb 7 :=
  ledger_keyed_by_trader_subject emptyDb "0xaa" "0xbb" 4 6 10 7 (by decide)
